import Mathlib

set_option autoImplicit false

namespace Ipcache

/-- Numeric security identity together with the string form of its CIDR label
(the empty string when the identity carries no CIDR label).  Mirrors the
fields of identity.Identity that pkg/ipcache/cidr.go reads and writes. -/
structure Identity where
  ID : Nat
  CIDRLabel : String
deriving DecidableEq, Repr

/-- Source tag of an ipcache entry.  Only Generated is produced by the CIDR
allocation paths of pkg/ipcache/cidr.go; Other stands for any different
provenance an entry may already carry. -/
inductive Source where
  | Generated
  | Other
deriving DecidableEq, Repr

/-- Modelled from the spec: a CIDR cache entry of the shared IP cache store
(pkg/ipcache outside this excerpt) is a numeric identity ID plus a source
tag, keyed by prefix string. -/
structure CacheEntry where
  ID : Nat
  Source : Source
deriving DecidableEq, Repr

/-- Lookup of the first binding of a key in an association list. -/
def alookup {α : Type} : List (String × α) → String → Option α
  | [], _ => none
  | (k2, v) :: rest, k => if k2 = k then some v else alookup rest k

/-- Insert-or-overwrite of a binding in an association list, the behaviour of
a Go map assignment. -/
def aupsert {α : Type} : List (String × α) → String → α → List (String × α)
  | [], k, v => [(k, v)]
  | (k2, v2) :: rest, k, v =>
    if k2 = k then (k, v) :: rest else (k2, v2) :: aupsert rest k v

/-- Removal of every binding of a key from an association list. -/
def adelete {α : Type} : List (String × α) → String → List (String × α)
  | [], _ => []
  | (k2, v) :: rest, k =>
    if k2 = k then adelete rest k else (k2, v) :: adelete rest k

/-- The shared IP cache, as the mapping it represents: prefix string to entry. -/
abbrev Cache := List (String × CacheEntry)

/-- Modelled from the spec: the IP cache store operation Upsert, an
insert-or-overwrite keyed by prefix (defined in pkg/ipcache outside this
excerpt). -/
def Upsert (c : Cache) (k : String) (e : CacheEntry) : Cache := aupsert c k e

/-- Modelled from the spec: the IP cache store lookup by prefix, as used under
a read lock by UpsertGeneratedIdentities. -/
def LookupByIPRLocked (c : Cache) (k : String) : Option CacheEntry := alookup c k

/-- Modelled from the spec: the IP cache store Delete operation, removing the
entry of a prefix (defined in pkg/ipcache outside this excerpt). -/
def deleteLocked (c : Cache) (k : String) (_src : Source) : Cache := adelete c k

/-- The label source marker of CIDR labels, labels.LabelSourceCIDR. -/
def labelSourceCIDR : String := "cidr"

/-- Go strings.HasPrefix, on the character lists underlying the strings. -/
def goHas (s pre : String) : Bool :=
  List.isPrefixOf pre.data s.data

/-- Go strings.TrimPrefix: drop the given leading string when present,
otherwise return the string unchanged. -/
def goTrim (s pre : String) : String :=
  if goHas s pre then String.mk (s.data.drop pre.data.length) else s

/-- cidrLabelToPrefix of pkg/ipcache/cidr.go: strip the cidr label source from
a label string, failing when the label does not start with it. -/
def cidrLabelToPrefix (label : String) : Option String :=
  if goHas label labelSourceCIDR then
    some (goTrim label (labelSourceCIDR ++ ":"))
  else none

/-- Outcome of UpsertGeneratedIdentities: the cache afterwards, the prefixes
for which the unexpected-recovery counter was incremented (one list element
per increment), and the identity IDs warned about as non-CIDR. -/
structure UpsertOutcome where
  cache : Cache
  recoveries : List String
  warnings : List Nat
deriving DecidableEq, Repr

/-- Upsert every identity of a map into the cache with source Generated, the
shape of both upsert loops of UpsertGeneratedIdentities. -/
def upsertAll (c : Cache) (m : List (String × Identity)) : Cache :=
  m.foldl (fun acc kv => Upsert acc kv.1 ⟨kv.2.ID, Source.Generated⟩) c

/-- One step of the used-identities scan of UpsertGeneratedIdentities:
identities without a parseable CIDR label are warned about, prefixes already
cached are left alone, the rest are collected for upsert. -/
def usedStep (cache1 : Cache) (acc : List (String × Identity) × List Nat)
    (id : Identity) : List (String × Identity) × List Nat :=
  match cidrLabelToPrefix id.CIDRLabel with
  | none => (acc.1, acc.2 ++ [id.ID])
  | some pfx =>
    match LookupByIPRLocked cache1 pfx with
    | some _ => acc
    | none => (aupsert acc.1 pfx id, acc.2)

/-- UpsertGeneratedIdentities of pkg/ipcache/cidr.go: unconditionally upsert
the newly allocated identities with source Generated, then re-upsert any used
CIDR identity whose cache entry is unexpectedly absent, counting each such
recovery. -/
def UpsertGeneratedIdentities (cache : Cache) (newly : List (String × Identity))
    (used : List Identity) : UpsertOutcome :=
  let cache1 := upsertAll cache newly
  if used.isEmpty then ⟨cache1, [], []⟩
  else
    let acc := used.foldl (usedStep cache1) ([], [])
    ⟨upsertAll cache1 acc.1, acc.1.map Prod.fst, acc.2⟩

/-- identity.InvalidIdentity, the sentinel numeric identity passed when no
previous numeric identity exists. -/
def InvalidIdentity : Nat := 0

/-- A non-nil network prefix: the address part (p.IP.String in Go) and the
canonical prefix string (p.String in Go). -/
structure IPNet where
  ip : String
  str : String
deriving DecidableEq, Repr

/-- Reply of the external identity allocator to one AllocateIdentity call:
the identity and whether the allocation was new. -/
structure AllocReply where
  id : Identity
  isNew : Bool
deriving DecidableEq, Repr

instance {ε α : Type} [DecidableEq ε] [DecidableEq α] : DecidableEq (Except ε α) := fun x y =>
  match x, y with
  | .error a, .error b =>
    if h : a = b then .isTrue (by rw [h])
    else .isFalse (fun hh => h (by injection hh))
  | .ok a, .ok b =>
    if h : a = b then .isTrue (by rw [h])
    else .isFalse (fun hh => h (by injection hh))
  | .error _, .ok _ => .isFalse (fun hh => Except.noConfusion hh)
  | .ok _, .error _ => .isFalse (fun hh => Except.noConfusion hh)

/-- Record of one allocator invocation made by AllocateCIDRs: the prefix
string, the previous-numeric-identity hint handed to the allocator, and the
outcome as returned by the allocate helper. -/
structure AllocCall where
  prefixStr : String
  hint : Nat
  reply : Except String (Identity × Bool)
deriving DecidableEq, Repr

/-- CIDR label adjustment of the allocate helper: when the derived labels
contain the world label, the identity's CIDR label is set to the prefix. -/
def adjustId (world : Bool) (pstr : String) (id : Identity) : Identity :=
  if world then ⟨id.ID, labelSourceCIDR ++ ":" ++ pstr⟩ else id

/-- allocate of pkg/ipcache/cidr.go, at one oracle reply: a failed allocator
call is wrapped into the failed-to-allocate error, a successful one has its
CIDR label set when the labels carry the world label.  The world test stands
for the externally derived label set containing the world label. -/
def allocate (world : IPNet → Bool) (reply : Except String AllocReply)
    (p : IPNet) : Except String (Identity × Bool) :=
  match reply with
  | .error e => .error ("failed to allocate identity for cidr " ++ p.str ++ ": " ++ e)
  | .ok r => .ok (adjustId (world p) p.str r.id, r.isNew)

/-- The previous-numeric-identity hint of AllocateCIDRs: entry i of oldNIDs
when that index exists, the invalid sentinel otherwise. -/
def hintAt (oldNIDs : List Nat) (i : Nat) : Nat :=
  if h : i < oldNIDs.length then oldNIDs.get ⟨i, h⟩ else InvalidIdentity

/-- Result of the allocation loop of AllocateCIDRs: either a failure carrying
the identities to roll back, the newly-allocated map as mutated so far and
the call trace, or success carrying the allocated and newly-allocated maps
and the call trace. -/
inductive LoopResult where
  | fail (e : String) (used : List Identity) (newly : List (String × Identity))
      (calls : List AllocCall)
  | ok (alloc : List (String × Identity)) (newly : List (String × Identity))
      (calls : List AllocCall)
deriving DecidableEq, Repr

/-- The per-prefix loop of AllocateCIDRs: nil prefixes are skipped, each other
prefix is allocated with the hint of its index, a failure stops the loop with
the identities used so far, a success records the identity in the used list,
the allocated map and, when new, the newly-allocated map. -/
def allocLoop (world : IPNet → Bool) (oldNIDs : List Nat)
    (replies : Nat → Except String AllocReply) :
    List (Option IPNet) → Nat → Nat → List Identity →
    List (String × Identity) → List (String × Identity) → List AllocCall →
    LoopResult
  | [], _, _, _, alloc, newly, calls => .ok alloc newly calls
  | none :: ps, i, j, used, alloc, newly, calls =>
    allocLoop world oldNIDs replies ps (i + 1) j used alloc newly calls
  | some p :: ps, i, j, used, alloc, newly, calls =>
    match allocate world (replies j) p with
    | .error e =>
      .fail e used newly (calls ++ [⟨p.str, hintAt oldNIDs i, .error e⟩])
    | .ok (id, isNew) =>
      allocLoop world oldNIDs replies ps (i + 1) (j + 1) (used ++ [id])
        (aupsert alloc p.str id)
        (if isNew then aupsert newly p.str id else newly)
        (calls ++ [⟨p.str, hintAt oldNIDs i, .ok (id, isNew)⟩])

/-- Observable outcome of one AllocateCIDRs call: the returned value, the
identities handed to ReleaseSlice on rollback, the cache afterwards, the
final allocated and newly-allocated maps, the recovery counter increments of
the internal upsert, and the allocator call trace. -/
structure AllocOutcome where
  ret : Except String (List Identity)
  released : List Identity
  cache : Cache
  allocated : List (String × Identity)
  newly : List (String × Identity)
  recoveries : List String
  calls : List AllocCall
deriving DecidableEq, Repr

/-- AllocateCIDRs of pkg/ipcache/cidr.go.  The sink argument is the
newlyAllocatedIdentities map of the caller, none standing for a nil map; the
replies oracle stands for the external identity allocator, giving the result
of the j-th AllocateIdentity call of this invocation.  On failure the
identities used so far are released and the error returned; on success with a
nil sink the newly allocated identities are upserted with source Generated;
the returned identities are the values of the allocated map, one per distinct
prefix string. -/
def AllocateCIDRs (world : IPNet → Bool) (cache : Cache)
    (prefixes : List (Option IPNet)) (oldNIDs : List Nat)
    (sink : Option (List (String × Identity)))
    (replies : Nat → Except String AllocReply) : AllocOutcome :=
  match allocLoop world oldNIDs replies prefixes 0 0 [] [] (sink.getD []) [] with
  | .fail e used newly calls => ⟨.error e, used, cache, [], newly, [], calls⟩
  | .ok alloc newly calls =>
    match sink with
    | none =>
      let u := UpsertGeneratedIdentities cache newly []
      ⟨.ok (alloc.map Prod.snd), [], u.cache, alloc, newly, u.recoveries, calls⟩
    | some _ =>
      ⟨.ok (alloc.map Prod.snd), [], cache, alloc, newly, [], calls⟩

/-- Replies of the external collaborators to the handling of one prefix of a
release batch: the result of net.ParseCIDR, of the allocator LookupIdentity
on the derived labels, and of the allocator Release call, the last as the
last-reference flag together with an optional error. -/
structure ReleaseReply where
  parsed : Option IPNet
  found : Option Identity
  released : Bool
  releaseErr : Option String
deriving DecidableEq, Repr

/-- Accumulators of the release loop: prefixes to delete and the three logged
categories. -/
structure ReleaseAcc where
  toDelete : List String
  parseErrors : List String
  notFound : List String
  releaseWarnings : List String
deriving DecidableEq, Repr

/-- The per-prefix loop of releaseCIDRIdentities: unparsable prefixes and
prefixes whose identity is not found are logged and skipped, release errors
are logged as warnings, and prefixes whose release reported the last
reference are collected for deletion. -/
def releaseLoop : List (String × ReleaseReply) → ReleaseAcc → ReleaseAcc
  | [], acc => acc
  | (p, r) :: rest, acc =>
    match r.parsed with
    | none =>
      releaseLoop rest ⟨acc.toDelete, acc.parseErrors ++ [p], acc.notFound,
        acc.releaseWarnings⟩
    | some _ =>
      match r.found with
      | none =>
        releaseLoop rest ⟨acc.toDelete, acc.parseErrors, acc.notFound ++ [p],
          acc.releaseWarnings⟩
      | some _ =>
        releaseLoop rest
          ⟨if r.released then acc.toDelete ++ [p] else acc.toDelete,
           acc.parseErrors, acc.notFound,
           if r.releaseErr.isSome then acc.releaseWarnings ++ [p]
           else acc.releaseWarnings⟩

/-- Outcome of releaseCIDRIdentities: the cache afterwards and the four lists
of the loop. -/
structure ReleaseOutcome where
  cache : Cache
  toDelete : List String
  parseErrors : List String
  notFound : List String
  releaseWarnings : List String
deriving DecidableEq, Repr

/-- releaseCIDRIdentities of pkg/ipcache/cidr.go: under one critical section,
process the batch, then delete from the cache exactly the prefixes whose
release reported the last reference. -/
def releaseCIDRIdentities (cache : Cache)
    (batch : List (String × ReleaseReply)) : ReleaseOutcome :=
  let acc := releaseLoop batch ⟨[], [], [], []⟩
  ⟨acc.toDelete.foldl (fun c p => deleteLocked c p Source.Generated) cache,
   acc.toDelete, acc.parseErrors, acc.notFound, acc.releaseWarnings⟩

/-- Selector of the prefixes releaseCIDRIdentities deletes: parse succeeded,
the identity was found, and the allocator reported the last reference. -/
def delSel (pr : String × ReleaseReply) : Option String :=
  if pr.2.parsed.isSome && pr.2.found.isSome && pr.2.released then some pr.1
  else none

/-- Selector of the prefixes logged as unparsable. -/
def parseSel (pr : String × ReleaseReply) : Option String :=
  if pr.2.parsed.isNone then some pr.1 else none

/-- Selector of the prefixes logged as having no identity in the allocator. -/
def nfSel (pr : String × ReleaseReply) : Option String :=
  if pr.2.parsed.isSome && pr.2.found.isNone then some pr.1 else none

/-- Selector of the prefixes whose allocator release returned an error. -/
def rwSel (pr : String × ReleaseReply) : Option String :=
  if pr.2.parsed.isSome && pr.2.found.isSome && pr.2.releaseErr.isSome then
    some pr.1
  else none

/-- The per-identity loop of ReleaseCIDRIdentitiesByID: each numeric identity
comes with the allocator LookupIdentityByID reply; identities no longer
allocated and identities without a parseable CIDR label are warned about and
skipped, the rest contribute their prefix. -/
def releaseByIDLoop : List (Nat × Option Identity) → List String → List Nat →
    List Nat → List String × List Nat × List Nat
  | [], prefixes, warnNonCIDR, warnNotAlloc => (prefixes, warnNonCIDR, warnNotAlloc)
  | (nid, r) :: rest, prefixes, warnNonCIDR, warnNotAlloc =>
    match r with
    | some id =>
      match cidrLabelToPrefix id.CIDRLabel with
      | none => releaseByIDLoop rest prefixes (warnNonCIDR ++ [nid]) warnNotAlloc
      | some pfx => releaseByIDLoop rest (prefixes ++ [pfx]) warnNonCIDR warnNotAlloc
    | none => releaseByIDLoop rest prefixes warnNonCIDR (warnNotAlloc ++ [nid])

/-- ReleaseCIDRIdentitiesByID of pkg/ipcache/cidr.go: resolve each numeric
identity back to its prefix through its CIDR label and enqueue the resolved
prefixes; returns the enqueued prefixes, the identities warned about as
non-CIDR, and the identities warned about as no longer allocated. -/
def ReleaseCIDRIdentitiesByID (ids : List (Nat × Option Identity)) :
    List String × List Nat × List Nat :=
  releaseByIDLoop ids [] [] []

/-- Selector of the prefixes ReleaseCIDRIdentitiesByID enqueues. -/
def byIDSel (x : Nat × Option Identity) : Option String :=
  match x.2 with
  | some id => cidrLabelToPrefix id.CIDRLabel
  | none => none

/-- Selector of the identities warned about as non-CIDR. -/
def byIDWarnNonCIDR (x : Nat × Option Identity) : Option Nat :=
  match x.2 with
  | some id => if (cidrLabelToPrefix id.CIDRLabel).isNone then some x.1 else none
  | none => none

/-- Selector of the identities warned about as no longer allocated. -/
def byIDWarnNotAlloc (x : Nat × Option Identity) : Option Nat :=
  if x.2.isNone then some x.1 else none

/-- Joint state of allocator and cache restricted to one prefix, for the
release-against-allocation interleaving argument: the allocator reference
count of the prefix's identity and the cache. -/
structure RaceState where
  rc : Nat
  cache : Cache
deriving DecidableEq, Repr

/-- Modelled from the spec: the replies the reference-counted allocator gives
to the release transaction at a given state.  The identity is found exactly
while references remain, and Release reports the last reference exactly when
the count drops to zero. -/
def releaseReplyOf (pfx : IPNet) (id : Identity) (s : RaceState) : ReleaseReply :=
  ⟨some pfx, if 0 < s.rc then some id else none, s.rc == 1, none⟩

/-- The whole critical section of releaseCIDRIdentities on a one-prefix
batch, run atomically as the code holds the coordinator lock across the
allocator release and the cache delete. -/
def releaseEvent (pstr : String) (pfx : IPNet) (id : Identity)
    (s : RaceState) : RaceState :=
  ⟨if 0 < s.rc then s.rc - 1 else s.rc,
   (releaseCIDRIdentities s.cache [(pstr, releaseReplyOf pfx id s)]).cache⟩

/-- The locked section of AllocateCIDRs on the same prefix: the allocator
increments the reference count and reports a new allocation exactly when no
reference existed (modelled from the spec's reference-counted allocator). -/
def allocEvent (s : RaceState) : RaceState × Bool :=
  (⟨s.rc + 1, s.cache⟩, s.rc == 0)

/-- The upsert step AllocateCIDRs performs after releasing its locks: the
newly-allocated map holds the prefix exactly when the allocation was new. -/
def upsertEvent (pstr : String) (id : Identity) (isNew : Bool)
    (s : RaceState) : RaceState :=
  ⟨s.rc,
   (UpsertGeneratedIdentities s.cache (if isNew then [(pstr, id)] else []) []).cache⟩

/-- The three interleavings of the atomic release section R against the
allocation sections A then U, respecting A before U. -/
inductive Schedule where
  | RAU
  | ARU
  | AUR
deriving DecidableEq, Repr

/-- Run one concurrent release of a prefix against one allocation of the same
prefix under the given interleaving. -/
def raceRun (sch : Schedule) (pstr : String) (pfx : IPNet)
    (idr ida : Identity) (s : RaceState) : RaceState :=
  match sch with
  | .RAU =>
    let s1 := releaseEvent pstr pfx idr s
    let pr := allocEvent s1
    upsertEvent pstr ida pr.2 pr.1
  | .ARU =>
    let pr := allocEvent s
    let s2 := releaseEvent pstr pfx idr pr.1
    upsertEvent pstr ida pr.2 s2
  | .AUR =>
    let pr := allocEvent s
    let s2 := upsertEvent pstr ida pr.2 pr.1
    releaseEvent pstr pfx idr s2

/-- Whether an allocator call of the trace succeeded. -/
def callOk (c : AllocCall) : Bool :=
  match c.reply with
  | .ok _ => true
  | .error _ => false

/-- The identities returned by the successful calls of a trace, in order:
exactly the usedIdentities list AllocateCIDRs maintains for rollback. -/
def okIds (cs : List AllocCall) : List Identity :=
  cs.filterMap (fun c =>
    match c.reply with
    | .ok x => some x.1
    | .error _ => none)

/-- Whether a call of the trace reported a newly allocated identity. -/
def isNewCall (c : AllocCall) : Bool :=
  match c.reply with
  | .ok x => x.2
  | .error _ => false

/-- A call record with its hint erased, to compare traces across different
oldNIDs inputs. -/
def zeroHint (c : AllocCall) : AllocCall :=
  ⟨c.prefixStr, 0, c.reply⟩

/-- A loop result with the hints of its trace erased. -/
def stripRes : LoopResult → LoopResult
  | .fail e u n cs => .fail e u n (cs.map zeroHint)
  | .ok a n cs => .ok a n (cs.map zeroHint)

/-- Number of non-nil prefixes strictly before index d: the position in the
allocator call trace of the call made for the prefix at index d. -/
def nnb (ps : List (Option IPNet)) (d : Nat) : Nat :=
  ((ps.take d).filterMap id).length

theorem alookup_aupsert_self {α : Type} (m : List (String × α)) (k : String) (v : α) :
    alookup (aupsert m k v) k = some v := by
  induction m with
  | nil => simp [aupsert, alookup]
  | cons kv rest ih =>
    obtain ⟨k2, v2⟩ := kv
    by_cases h : k2 = k
    · simp [aupsert, h, alookup]
    · simp [aupsert, h, alookup, ih]

theorem alookup_aupsert_ne {α : Type} (m : List (String × α)) (k k2 : String) (v : α)
    (h : k2 ≠ k) : alookup (aupsert m k v) k2 = alookup m k2 := by
  induction m with
  | nil => simp [aupsert, alookup, Ne.symm h]
  | cons kv rest ih =>
    obtain ⟨k3, v3⟩ := kv
    by_cases h3 : k3 = k
    · subst h3
      simp [aupsert, alookup, Ne.symm h]
    · by_cases h2 : k3 = k2
      · simp [aupsert, alookup, h3, h2, h]
      · simp [aupsert, alookup, h3, h2, ih]

theorem alookup_adelete_self {α : Type} (m : List (String × α)) (k : String) :
    alookup (adelete m k) k = none := by
  induction m with
  | nil => simp [adelete, alookup]
  | cons kv rest ih =>
    obtain ⟨k2, v2⟩ := kv
    by_cases h : k2 = k
    · simp [adelete, h, ih]
    · simp [adelete, alookup, h, ih]

theorem alookup_adelete_ne {α : Type} (m : List (String × α)) (k k2 : String)
    (h : k2 ≠ k) : alookup (adelete m k) k2 = alookup m k2 := by
  induction m with
  | nil => simp [adelete]
  | cons kv rest ih =>
    obtain ⟨k3, v3⟩ := kv
    by_cases h3 : k3 = k
    · subst h3
      simp [adelete, alookup, Ne.symm h, ih]
    · simp [adelete, alookup, h3, ih]

theorem mem_keys_aupsert {α : Type} (m : List (String × α)) (k a : String) (v : α) :
    a ∈ (aupsert m k v).map Prod.fst ↔ a = k ∨ a ∈ m.map Prod.fst := by
  induction m with
  | nil => simp [aupsert]
  | cons kv rest ih =>
    obtain ⟨k2, v2⟩ := kv
    by_cases h : k2 = k
    · subst h
      simp [aupsert]
    · simp only [aupsert, if_neg h, List.map_cons, List.mem_cons, ih]
      tauto

theorem nodup_keys_aupsert {α : Type} (m : List (String × α)) (k : String) (v : α)
    (h : (m.map Prod.fst).Nodup) : ((aupsert m k v).map Prod.fst).Nodup := by
  induction m with
  | nil => simp [aupsert]
  | cons kv rest ih =>
    obtain ⟨k2, v2⟩ := kv
    simp only [List.map_cons, List.nodup_cons] at h
    by_cases hk : k2 = k
    · subst hk
      simpa [aupsert] using h
    · simp only [aupsert, if_neg hk, List.map_cons, List.nodup_cons]
      refine ⟨fun hmem => ?_, ih h.2⟩
      rw [mem_keys_aupsert] at hmem
      rcases hmem with h1 | h1
      · exact hk h1
      · exact h.1 h1

theorem alookup_upsertAll_notmem (c : Cache) (m : List (String × Identity)) (k : String)
    (h : k ∉ m.map Prod.fst) : alookup (upsertAll c m) k = alookup c k := by
  induction m generalizing c with
  | nil => simp [upsertAll]
  | cons kv rest ih =>
    obtain ⟨k2, v2⟩ := kv
    simp only [List.map_cons, List.mem_cons] at h
    push_neg at h
    simp only [upsertAll, List.foldl_cons] at *
    rw [ih _ h.2, Upsert, alookup_aupsert_ne _ _ _ _ h.1]

theorem upsertAll_cons (c : Cache) (k : String) (v : Identity)
    (rest : List (String × Identity)) :
    upsertAll c ((k, v) :: rest) =
      upsertAll (Upsert c k ⟨v.ID, Source.Generated⟩) rest := rfl

theorem alookup_upsertAll_mem (c : Cache) (m : List (String × Identity)) (k : String)
    (v : Identity) (hnd : (m.map Prod.fst).Nodup) (hmem : (k, v) ∈ m) :
    alookup (upsertAll c m) k = some ⟨v.ID, Source.Generated⟩ := by
  induction m generalizing c with
  | nil => simp at hmem
  | cons kv rest ih =>
    obtain ⟨k2, v2⟩ := kv
    simp only [List.map_cons, List.nodup_cons] at hnd
    rcases List.mem_cons.mp hmem with h1 | h1
    · injection h1 with hk hv
      subst hk
      subst hv
      rw [upsertAll_cons, alookup_upsertAll_notmem _ _ _ hnd.1, Upsert,
        alookup_aupsert_self]
    · rw [upsertAll_cons]
      exact ih _ hnd.2 h1

theorem isSome_alookup_upsertAll (c : Cache) (m : List (String × Identity)) (k : String)
    (h : (alookup c k).isSome) : (alookup (upsertAll c m) k).isSome := by
  induction m generalizing c with
  | nil => simpa [upsertAll] using h
  | cons kv rest ih =>
    obtain ⟨k2, v2⟩ := kv
    simp only [upsertAll, List.foldl_cons] at *
    apply ih
    by_cases hk : k = k2
    · subst hk
      simp [Upsert, alookup_aupsert_self]
    · rw [Upsert, alookup_aupsert_ne _ _ _ _ hk]
      exact h

theorem alookup_foldl_deleteLocked (td : List String) (c : Cache) (k : String) :
    alookup (td.foldl (fun c2 p => deleteLocked c2 p Source.Generated) c) k =
      if k ∈ td then none else alookup c k := by
  induction td generalizing c with
  | nil => simp
  | cons p rest ih =>
    simp only [List.foldl_cons, ih, List.mem_cons]
    by_cases hk : k = p
    · subst hk
      simp [deleteLocked, alookup_adelete_self]
    · by_cases hr : k ∈ rest
      · simp [hr, hk]
      · simp [hr, hk, deleteLocked, alookup_adelete_ne _ _ _ hk]

theorem releaseLoop_spec (batch : List (String × ReleaseReply)) (acc : ReleaseAcc) :
    releaseLoop batch acc =
      ⟨acc.toDelete ++ batch.filterMap delSel,
       acc.parseErrors ++ batch.filterMap parseSel,
       acc.notFound ++ batch.filterMap nfSel,
       acc.releaseWarnings ++ batch.filterMap rwSel⟩ := by
  induction batch generalizing acc with
  | nil => simp [releaseLoop]
  | cons pr rest ih =>
    obtain ⟨p, r⟩ := pr
    obtain ⟨pgot, fgot, rel, rerr⟩ := r
    cases pgot with
    | none =>
      simp [releaseLoop, ih, delSel, parseSel, nfSel, rwSel, List.filterMap_cons]
    | some pp =>
      cases fgot with
      | none =>
        simp [releaseLoop, ih, delSel, parseSel, nfSel, rwSel, List.filterMap_cons]
      | some idf =>
        cases rel <;> cases rerr <;>
          simp [releaseLoop, ih, delSel, parseSel, nfSel, rwSel,
            List.filterMap_cons]

theorem releaseByIDLoop_spec (ids : List (Nat × Option Identity))
    (prefixes : List String) (warnNonCIDR warnNotAlloc : List Nat) :
    releaseByIDLoop ids prefixes warnNonCIDR warnNotAlloc =
      (prefixes ++ ids.filterMap byIDSel,
       warnNonCIDR ++ ids.filterMap byIDWarnNonCIDR,
       warnNotAlloc ++ ids.filterMap byIDWarnNotAlloc) := by
  induction ids generalizing prefixes warnNonCIDR warnNotAlloc with
  | nil => simp [releaseByIDLoop]
  | cons x rest ih =>
    obtain ⟨nid, r⟩ := x
    cases r with
    | none =>
      simp [releaseByIDLoop, ih, byIDSel, byIDWarnNonCIDR, byIDWarnNotAlloc,
        List.filterMap_cons]
    | some id =>
      cases hlbl : cidrLabelToPrefix id.CIDRLabel with
      | none =>
        simp [releaseByIDLoop, hlbl, ih, byIDSel, byIDWarnNonCIDR,
          byIDWarnNotAlloc, List.filterMap_cons]
      | some pfx =>
        simp [releaseByIDLoop, hlbl, ih, byIDSel, byIDWarnNonCIDR,
          byIDWarnNotAlloc, List.filterMap_cons]

theorem okIds_append (a b : List AllocCall) : okIds (a ++ b) = okIds a ++ okIds b := by
  simp [okIds, List.filterMap_append]

theorem allocLoop_fail_spec (world : IPNet → Bool) (oldNIDs : List Nat)
    (replies : Nat → Except String AllocReply) (ps : List (Option IPNet)) :
    ∀ (i j : Nat) (used : List Identity) (alloc newly : List (String × Identity))
      (calls : List AllocCall) (e : String) (used2 : List Identity)
      (newly2 : List (String × Identity)) (calls2 : List AllocCall),
      allocLoop world oldNIDs replies ps i j used alloc newly calls =
        .fail e used2 newly2 calls2 →
      used = okIds calls →
      (∀ c ∈ calls, callOk c = true) →
      used2 = okIds calls2.dropLast ∧
        (∀ c ∈ calls2.dropLast, callOk c = true) ∧
        ∃ s h2, calls2 = calls2.dropLast ++ [⟨s, h2, Except.error e⟩] := by
  induction ps with
  | nil =>
    intro i j used alloc newly calls e used2 newly2 calls2 h hused hok
    simp [allocLoop] at h
  | cons op rest ih =>
    intro i j used alloc newly calls e used2 newly2 calls2 h hused hok
    cases op with
    | none =>
      rw [allocLoop] at h
      exact ih (i + 1) j used alloc newly calls e used2 newly2 calls2 h hused hok
    | some p =>
      rw [allocLoop] at h
      cases hall : allocate world (replies j) p with
      | error e0 =>
        rw [hall] at h
        injection h with he hu hn hc
        subst he
        subst hu
        subst hn
        subst hc
        rw [List.dropLast_concat]
        exact ⟨hused, hok, p.str, hintAt oldNIDs i, rfl⟩
      | ok pair =>
        obtain ⟨id, isNew⟩ := pair
        rw [hall] at h
        apply ih (i + 1) (j + 1) (used ++ [id]) (aupsert alloc p.str id)
          (if isNew then aupsert newly p.str id else newly)
          (calls ++ [⟨p.str, hintAt oldNIDs i, .ok (id, isNew)⟩]) e used2 newly2
          calls2 h
        · rw [hused, okIds_append]
          simp [okIds]
        · intro c hc
          rcases List.mem_append.mp hc with h1 | h1
          · exact hok c h1
          · simp only [List.mem_singleton] at h1
            subst h1
            simp [callOk]

theorem allocLoop_ok_spec (world : IPNet → Bool) (oldNIDs : List Nat)
    (replies : Nat → Except String AllocReply) (ps : List (Option IPNet)) :
    ∀ (i j : Nat) (used : List Identity) (alloc newly : List (String × Identity))
      (calls : List AllocCall) (alloc2 newly2 : List (String × Identity))
      (calls2 : List AllocCall),
      allocLoop world oldNIDs replies ps i j used alloc newly calls =
        .ok alloc2 newly2 calls2 →
      (∃ ext, calls2 = calls ++ ext ∧
        ∀ k, k ∈ newly2.map Prod.fst ↔
          (k ∈ newly.map Prod.fst ∨
            ∃ c ∈ ext, c.prefixStr = k ∧ isNewCall c = true)) ∧
        ((newly.map Prod.fst).Nodup → (newly2.map Prod.fst).Nodup) ∧
        ((alloc.map Prod.fst).Nodup → (alloc2.map Prod.fst).Nodup) := by
  induction ps with
  | nil =>
    intro i j used alloc newly calls alloc2 newly2 calls2 h
    rw [allocLoop] at h
    injection h with ha hn hc
    subst ha
    subst hn
    subst hc
    exact ⟨⟨[], by simp⟩, fun hh => hh, fun hh => hh⟩
  | cons op rest ih =>
    intro i j used alloc newly calls alloc2 newly2 calls2 h
    cases op with
    | none =>
      rw [allocLoop] at h
      exact ih (i + 1) j used alloc newly calls alloc2 newly2 calls2 h
    | some p =>
      rw [allocLoop] at h
      cases hall : allocate world (replies j) p with
      | error e0 =>
        rw [hall] at h
        exact absurd h (by simp)
      | ok pair =>
        obtain ⟨id, isNew⟩ := pair
        rw [hall] at h
        cases isNew with
        | true =>
          simp only [if_pos] at h
          obtain ⟨⟨ext, hext, hkeys⟩, hnd, hnda⟩ :=
            ih (i + 1) (j + 1) (used ++ [id]) (aupsert alloc p.str id)
              (aupsert newly p.str id)
              (calls ++ [⟨p.str, hintAt oldNIDs i, .ok (id, true)⟩]) alloc2 newly2
              calls2 h
          refine ⟨⟨⟨p.str, hintAt oldNIDs i, .ok (id, true)⟩ :: ext, ?_, ?_⟩,
            fun hh => hnd (nodup_keys_aupsert _ _ _ hh),
            fun hh => hnda (nodup_keys_aupsert _ _ _ hh)⟩
          · rw [hext]
            simp
          · intro k
            rw [hkeys k, mem_keys_aupsert]
            constructor
            · rintro ((rfl | h1) | ⟨c, hc, hpk, hnew⟩)
              · exact Or.inr ⟨_, List.mem_cons_self _ _, rfl, by simp [isNewCall]⟩
              · exact Or.inl h1
              · exact Or.inr ⟨c, List.mem_cons_of_mem _ hc, hpk, hnew⟩
            · rintro (h1 | ⟨c, hc, hpk, hnew⟩)
              · exact Or.inl (Or.inr h1)
              · rcases List.mem_cons.mp hc with rfl | h2
                · exact Or.inl (Or.inl hpk.symm)
                · exact Or.inr ⟨c, h2, hpk, hnew⟩
        | false =>
          simp only [Bool.false_eq_true, if_false] at h
          obtain ⟨⟨ext, hext, hkeys⟩, hnd, hnda⟩ :=
            ih (i + 1) (j + 1) (used ++ [id]) (aupsert alloc p.str id) newly
              (calls ++ [⟨p.str, hintAt oldNIDs i, .ok (id, false)⟩]) alloc2 newly2
              calls2 h
          refine ⟨⟨⟨p.str, hintAt oldNIDs i, .ok (id, false)⟩ :: ext, ?_, ?_⟩,
            hnd, fun hh => hnda (nodup_keys_aupsert _ _ _ hh)⟩
          · rw [hext]
            simp
          · intro k
            rw [hkeys k]
            constructor
            · rintro (h1 | ⟨c, hc, hpk, hnew⟩)
              · exact Or.inl h1
              · exact Or.inr ⟨c, List.mem_cons_of_mem _ hc, hpk, hnew⟩
            · rintro (h1 | ⟨c, hc, hpk, hnew⟩)
              · exact Or.inl h1
              · rcases List.mem_cons.mp hc with rfl | h2
                · simp [isNewCall] at hnew
                · exact Or.inr ⟨c, h2, hpk, hnew⟩

theorem nnb_zero (ps : List (Option IPNet)) : nnb ps 0 = 0 := rfl

theorem nnb_succ_none (ps : List (Option IPNet)) (d : Nat) :
    nnb (none :: ps) (d + 1) = nnb ps d := by
  simp [nnb, List.filterMap_cons]

theorem nnb_succ_some (ps : List (Option IPNet)) (p : IPNet) (d : Nat) :
    nnb (some p :: ps) (d + 1) = nnb ps d + 1 := by
  simp [nnb, List.filterMap_cons]

theorem allocLoop_calls_spec (world : IPNet → Bool) (oldNIDs : List Nat)
    (replies : Nat → Except String AllocReply) (ps : List (Option IPNet)) :
    ∀ (i j : Nat) (used : List Identity) (alloc newly : List (String × Identity))
      (calls : List AllocCall) (alloc2 newly2 : List (String × Identity))
      (calls2 : List AllocCall),
      allocLoop world oldNIDs replies ps i j used alloc newly calls =
        .ok alloc2 newly2 calls2 →
      calls.length = j →
      ∀ (d : Nat) (p : IPNet), ps[d]? = some (some p) →
        calls2[j + nnb ps d]? =
          some ⟨p.str, hintAt oldNIDs (i + d),
            allocate world (replies (j + nnb ps d)) p⟩ := by
  induction ps with
  | nil =>
    intro i j used alloc newly calls alloc2 newly2 calls2 h hlen d p hd
    simp at hd
  | cons op rest ih =>
    intro i j used alloc newly calls alloc2 newly2 calls2 h hlen d p hd
    cases op with
    | none =>
      rw [allocLoop] at h
      cases d with
      | zero => simp at hd
      | succ d2 =>
        have hd2 : rest[d2]? = some (some p) := by simpa using hd
        have hres := ih (i + 1) j used alloc newly calls alloc2 newly2 calls2 h
          hlen d2 p hd2
        rw [nnb_succ_none]
        have h2 : i + (d2 + 1) = (i + 1) + d2 := by omega
        rw [h2]
        exact hres
    | some p0 =>
      rw [allocLoop] at h
      cases hall : allocate world (replies j) p0 with
      | error e0 =>
        rw [hall] at h
        exact absurd h (by simp)
      | ok pair =>
        obtain ⟨id, isNew⟩ := pair
        rw [hall] at h
        cases d with
        | zero =>
          have hp : p0 = p := by simpa using hd
          subst hp
          obtain ⟨⟨ext, hext, hk⟩, hn1, hn2⟩ :=
            allocLoop_ok_spec world oldNIDs replies rest (i + 1) (j + 1)
              (used ++ [id]) (aupsert alloc p0.str id)
              (if isNew then aupsert newly p0.str id else newly)
              (calls ++ [⟨p0.str, hintAt oldNIDs i, .ok (id, isNew)⟩]) alloc2
              newly2 calls2 h
          rw [nnb_zero, Nat.add_zero, Nat.add_zero, hall, hext,
            List.append_assoc, List.singleton_append,
            List.getElem?_append_right (by omega), hlen]
          simp
        | succ d2 =>
          have hd2 : rest[d2]? = some (some p) := by simpa using hd
          have hres := ih (i + 1) (j + 1) (used ++ [id]) (aupsert alloc p0.str id)
            (if isNew then aupsert newly p0.str id else newly)
            (calls ++ [⟨p0.str, hintAt oldNIDs i, .ok (id, isNew)⟩]) alloc2
            newly2 calls2 h (by simp [hlen]) d2 p hd2
          rw [nnb_succ_some]
          have h1 : j + (nnb rest d2 + 1) = (j + 1) + nnb rest d2 := by omega
          have h2 : i + (d2 + 1) = (i + 1) + d2 := by omega
          rw [h1, h2]
          exact hres

theorem allocLoop_hint_congr (world : IPNet → Bool) (oldN oldN2 : List Nat)
    (replies : Nat → Except String AllocReply) (ps : List (Option IPNet)) :
    ∀ (i j : Nat) (used : List Identity) (alloc newly : List (String × Identity))
      (calls calls2 : List AllocCall),
      calls.map zeroHint = calls2.map zeroHint →
      stripRes (allocLoop world oldN replies ps i j used alloc newly calls) =
        stripRes (allocLoop world oldN2 replies ps i j used alloc newly calls2) := by
  induction ps with
  | nil =>
    intro i j used alloc newly calls calls2 hmap
    simp [allocLoop, stripRes, hmap]
  | cons op rest ih =>
    intro i j used alloc newly calls calls2 hmap
    cases op with
    | none =>
      rw [allocLoop, allocLoop]
      exact ih (i + 1) j used alloc newly calls calls2 hmap
    | some p =>
      rw [allocLoop, allocLoop]
      cases hall : allocate world (replies j) p with
      | error e0 =>
        simp [stripRes, zeroHint, hmap]
      | ok pair =>
        obtain ⟨id, isNew⟩ := pair
        apply ih
        simp [zeroHint, hmap]

theorem usedFold_warnings (cache1 : Cache) (used : List Identity) :
    ∀ acc : List (String × Identity) × List Nat,
      (used.foldl (usedStep cache1) acc).2 =
        acc.2 ++ used.filterMap (fun id =>
          if (cidrLabelToPrefix id.CIDRLabel).isNone then some id.ID else none) := by
  induction used with
  | nil => intro acc; simp
  | cons id rest ih =>
    intro acc
    cases hlbl : cidrLabelToPrefix id.CIDRLabel with
    | none =>
      simp [usedStep, hlbl, ih, List.filterMap_cons]
    | some pfx =>
      cases hlk : LookupByIPRLocked cache1 pfx with
      | none => simp [usedStep, hlbl, hlk, ih, List.filterMap_cons]
      | some e => simp [usedStep, hlbl, hlk, ih, List.filterMap_cons]

theorem usedFold_keys (cache1 : Cache) (used : List Identity) :
    ∀ (acc : List (String × Identity) × List Nat) (k : String),
      k ∈ (used.foldl (usedStep cache1) acc).1.map Prod.fst ↔
        (k ∈ acc.1.map Prod.fst ∨
          ∃ id ∈ used, cidrLabelToPrefix id.CIDRLabel = some k ∧
            LookupByIPRLocked cache1 k = none) := by
  induction used with
  | nil => intro acc k; simp
  | cons id rest ih =>
    intro acc k
    cases hlbl : cidrLabelToPrefix id.CIDRLabel with
    | none =>
      rw [List.foldl_cons]
      have hstep : usedStep cache1 acc id = (acc.1, acc.2 ++ [id.ID]) := by
        simp [usedStep, hlbl]
      rw [hstep, ih]
      constructor
      · rintro (h1 | ⟨id2, hid2, hc⟩)
        · exact Or.inl h1
        · exact Or.inr ⟨id2, List.mem_cons_of_mem _ hid2, hc⟩
      · rintro (h1 | ⟨id2, hid2, hc1, hc2⟩)
        · exact Or.inl h1
        · rcases List.mem_cons.mp hid2 with rfl | h2
          · rw [hlbl] at hc1
            exact absurd hc1 (by simp)
          · exact Or.inr ⟨id2, h2, hc1, hc2⟩
    | some pfx =>
      cases hlk : LookupByIPRLocked cache1 pfx with
      | none =>
        rw [List.foldl_cons]
        have hstep : usedStep cache1 acc id = (aupsert acc.1 pfx id, acc.2) := by
          simp [usedStep, hlbl, hlk]
        rw [hstep, ih]
        simp only [mem_keys_aupsert]
        constructor
        · rintro ((rfl | h1) | ⟨id2, hid2, hc⟩)
          · exact Or.inr ⟨id, List.mem_cons_self _ _, hlbl, hlk⟩
          · exact Or.inl h1
          · exact Or.inr ⟨id2, List.mem_cons_of_mem _ hid2, hc⟩
        · rintro (h1 | ⟨id2, hid2, hc1, hc2⟩)
          · exact Or.inl (Or.inr h1)
          · rcases List.mem_cons.mp hid2 with rfl | h2
            · rw [hlbl] at hc1
              exact Or.inl (Or.inl (Option.some.inj hc1).symm)
            · exact Or.inr ⟨id2, h2, hc1, hc2⟩
      | some e =>
        rw [List.foldl_cons]
        have hstep : usedStep cache1 acc id = acc := by
          simp [usedStep, hlbl, hlk]
        rw [hstep, ih]
        constructor
        · rintro (h1 | ⟨id2, hid2, hc⟩)
          · exact Or.inl h1
          · exact Or.inr ⟨id2, List.mem_cons_of_mem _ hid2, hc⟩
        · rintro (h1 | ⟨id2, hid2, hc1, hc2⟩)
          · exact Or.inl h1
          · rcases List.mem_cons.mp hid2 with rfl | h2
            · rw [hlbl] at hc1
              have hkp : pfx = k := Option.some.inj hc1
              rw [hkp] at hlk
              rw [hlk] at hc2
              exact absurd hc2 (by simp)
            · exact Or.inr ⟨id2, h2, hc1, hc2⟩

theorem usedFold_nodup (cache1 : Cache) (used : List Identity) :
    ∀ acc : List (String × Identity) × List Nat,
      (acc.1.map Prod.fst).Nodup →
      ((used.foldl (usedStep cache1) acc).1.map Prod.fst).Nodup := by
  induction used with
  | nil => intro acc h; simpa using h
  | cons id rest ih =>
    intro acc h
    rw [List.foldl_cons]
    apply ih
    cases hlbl : cidrLabelToPrefix id.CIDRLabel with
    | none => simpa [usedStep, hlbl] using h
    | some pfx =>
      cases hlk : LookupByIPRLocked cache1 pfx with
      | none =>
        simp only [usedStep, hlbl, hlk]
        exact nodup_keys_aupsert _ _ _ h
      | some e => simpa [usedStep, hlbl, hlk] using h

theorem delSel_eq_some (pr : String × ReleaseReply) (p : String) :
    delSel pr = some p ↔
      pr.2.parsed.isSome = true ∧ pr.2.found.isSome = true ∧
        pr.2.released = true ∧ pr.1 = p := by
  cases hb : (pr.2.parsed.isSome && pr.2.found.isSome && pr.2.released) with
  | true =>
    simp only [Bool.and_eq_true] at hb
    simp [delSel, hb]
  | false =>
    simp only [delSel, hb, if_false, Bool.false_eq_true]
    constructor
    · intro h
      exact absurd h (by simp)
    · rintro ⟨h1, h2, h3, h4⟩
      simp [h1, h2, h3] at hb

/-- C4: for every batch processed by releaseCIDRIdentities, a prefix's cache
entry is deleted exactly when the allocator Release call for it reported the
last reference (with the prefix parsed and its identity found); a release
that merely decrements a still-referenced identity leaves the cache entry of
that prefix unchanged. -/
theorem releaseCIDRIdentities_delete_iff_released (cache : Cache)
    (batch : List (String × ReleaseReply)) :
    (∀ p, p ∈ (releaseCIDRIdentities cache batch).toDelete ↔
      ∃ pr ∈ batch, pr.1 = p ∧ pr.2.parsed.isSome = true ∧
        pr.2.found.isSome = true ∧ pr.2.released = true) ∧
    (∀ p, LookupByIPRLocked (releaseCIDRIdentities cache batch).cache p =
      if p ∈ (releaseCIDRIdentities cache batch).toDelete then none
      else LookupByIPRLocked cache p) := by
  have hloop := releaseLoop_spec batch ⟨[], [], [], []⟩
  constructor
  · intro p
    simp only [releaseCIDRIdentities, hloop, List.nil_append, List.mem_filterMap]
    constructor
    · rintro ⟨pr, hpr, hsel⟩
      obtain ⟨h1, h2, h3, h4⟩ := (delSel_eq_some pr p).mp hsel
      exact ⟨pr, hpr, h4, h1, h2, h3⟩
    · rintro ⟨pr, hpr, h4, h1, h2, h3⟩
      exact ⟨pr, hpr, (delSel_eq_some pr p).mpr ⟨h1, h2, h3, h4⟩⟩
  · intro p
    simp only [releaseCIDRIdentities, hloop, List.nil_append]
    exact alookup_foldl_deleteLocked _ cache p

/-- C7: no per-prefix failure aborts a release batch: an unparsable prefix is
logged and skipped, a prefix whose identity is not found is logged and
skipped, and an allocator release error is logged as a warning while the
remaining prefixes are still processed; in each case the rest of the batch
yields the same outcome it would alone. -/
theorem releaseCIDRIdentities_failures_skipped (cache : Cache) (p : String)
    (r : ReleaseReply) (rest : List (String × ReleaseReply)) :
    (r.parsed = none →
      releaseCIDRIdentities cache ((p, r) :: rest) =
        ⟨(releaseCIDRIdentities cache rest).cache,
         (releaseCIDRIdentities cache rest).toDelete,
         p :: (releaseCIDRIdentities cache rest).parseErrors,
         (releaseCIDRIdentities cache rest).notFound,
         (releaseCIDRIdentities cache rest).releaseWarnings⟩) ∧
    (r.parsed.isSome = true → r.found = none →
      releaseCIDRIdentities cache ((p, r) :: rest) =
        ⟨(releaseCIDRIdentities cache rest).cache,
         (releaseCIDRIdentities cache rest).toDelete,
         (releaseCIDRIdentities cache rest).parseErrors,
         p :: (releaseCIDRIdentities cache rest).notFound,
         (releaseCIDRIdentities cache rest).releaseWarnings⟩) ∧
    (r.parsed.isSome = true → r.found.isSome = true → r.releaseErr.isSome = true →
      r.released = false →
      releaseCIDRIdentities cache ((p, r) :: rest) =
        ⟨(releaseCIDRIdentities cache rest).cache,
         (releaseCIDRIdentities cache rest).toDelete,
         (releaseCIDRIdentities cache rest).parseErrors,
         (releaseCIDRIdentities cache rest).notFound,
         p :: (releaseCIDRIdentities cache rest).releaseWarnings⟩) ∧
    (r.parsed.isSome = true → r.found.isSome = true → r.releaseErr.isSome = true →
      r.released = true →
      releaseCIDRIdentities cache ((p, r) :: rest) =
        ⟨(releaseCIDRIdentities (deleteLocked cache p Source.Generated) rest).cache,
         p :: (releaseCIDRIdentities cache rest).toDelete,
         (releaseCIDRIdentities cache rest).parseErrors,
         (releaseCIDRIdentities cache rest).notFound,
         p :: (releaseCIDRIdentities cache rest).releaseWarnings⟩) := by
  have hcons := releaseLoop_spec ((p, r) :: rest) ⟨[], [], [], []⟩
  have hrest := releaseLoop_spec rest ⟨[], [], [], []⟩
  have hrest2 := releaseLoop_spec rest ⟨[], [], [], []⟩
  refine ⟨?_, ?_, ?_, ?_⟩
  · intro h1
    simp only [releaseCIDRIdentities, hcons, hrest, List.nil_append,
      List.filterMap_cons, delSel, parseSel, nfSel, rwSel, h1]
    simp
  · intro h1 h2
    obtain ⟨pp, hpp⟩ := Option.isSome_iff_exists.mp h1
    simp only [releaseCIDRIdentities, hcons, hrest, List.nil_append,
      List.filterMap_cons, delSel, parseSel, nfSel, rwSel, h2, hpp]
    simp
  · intro h1 h2 h3 h4
    obtain ⟨pp, hpp⟩ := Option.isSome_iff_exists.mp h1
    obtain ⟨ff, hff⟩ := Option.isSome_iff_exists.mp h2
    obtain ⟨ee, hee⟩ := Option.isSome_iff_exists.mp h3
    simp only [releaseCIDRIdentities, hcons, hrest, List.nil_append,
      List.filterMap_cons, delSel, parseSel, nfSel, rwSel, h4, hpp, hff, hee]
    simp
  · intro h1 h2 h3 h4
    obtain ⟨pp, hpp⟩ := Option.isSome_iff_exists.mp h1
    obtain ⟨ff, hff⟩ := Option.isSome_iff_exists.mp h2
    obtain ⟨ee, hee⟩ := Option.isSome_iff_exists.mp h3
    simp only [releaseCIDRIdentities, hcons, hrest, List.nil_append,
      List.filterMap_cons, delSel, parseSel, nfSel, rwSel, h4, hpp, hff, hee]
    simp [List.foldl_cons]

/-- C8: ReleaseCIDRIdentitiesByID enqueues for release exactly the prefixes
of the numeric identities that resolve, through the allocator, to an identity
whose CIDR label parses to a prefix; identities no longer allocated are
warned about and skipped, identities without a parseable CIDR label are
warned about and skipped, and neither kind affects the rest of the batch. -/
theorem releaseCIDRIdentitiesByID_enqueue_spec (ids : List (Nat × Option Identity)) :
    (ReleaseCIDRIdentitiesByID ids).1 = ids.filterMap byIDSel ∧
    (ReleaseCIDRIdentitiesByID ids).2.1 = ids.filterMap byIDWarnNonCIDR ∧
    (ReleaseCIDRIdentitiesByID ids).2.2 = ids.filterMap byIDWarnNotAlloc ∧
    (∀ p, p ∈ (ReleaseCIDRIdentitiesByID ids).1 ↔
      ∃ nid id, (nid, some id) ∈ ids ∧ cidrLabelToPrefix id.CIDRLabel = some p) := by
  have h := releaseByIDLoop_spec ids [] [] []
  refine ⟨?_, ?_, ?_, ?_⟩
  · simp [ReleaseCIDRIdentitiesByID, h]
  · simp [ReleaseCIDRIdentitiesByID, h]
  · simp [ReleaseCIDRIdentitiesByID, h]
  · intro p
    simp only [ReleaseCIDRIdentitiesByID, h, List.nil_append, List.mem_filterMap]
    constructor
    · rintro ⟨x, hx, hsel⟩
      obtain ⟨nid, rr⟩ := x
      cases rr with
      | none => simp [byIDSel] at hsel
      | some id => exact ⟨nid, id, hx, by simpa [byIDSel] using hsel⟩
    · rintro ⟨nid, id, hmem, hp⟩
      exact ⟨(nid, some id), hmem, by simpa [byIDSel] using hp⟩

/-- C5: UpsertGeneratedIdentities unconditionally upserts every entry of the
newly-allocated map with source Generated; a used identity whose CIDR label
does not parse is skipped with a warning; a used identity whose prefix is
already cached causes nothing; otherwise the prefix is upserted and the
unexpected-recovery counter incremented exactly once for that prefix; and the
call never removes a cache entry. -/
theorem upsertGeneratedIdentities_spec (cache : Cache)
    (newly : List (String × Identity)) (used : List Identity)
    (hnd : (newly.map Prod.fst).Nodup) :
    (∀ k id, (k, id) ∈ newly →
      LookupByIPRLocked (UpsertGeneratedIdentities cache newly used).cache k =
        some ⟨id.ID, Source.Generated⟩) ∧
    (∀ id ∈ used, cidrLabelToPrefix id.CIDRLabel = none →
      id.ID ∈ (UpsertGeneratedIdentities cache newly used).warnings) ∧
    (∀ pfx, pfx ∈ (UpsertGeneratedIdentities cache newly used).recoveries ↔
      ((∃ id ∈ used, cidrLabelToPrefix id.CIDRLabel = some pfx) ∧
        LookupByIPRLocked (UpsertGeneratedIdentities cache newly []).cache pfx =
          none)) ∧
    (UpsertGeneratedIdentities cache newly used).recoveries.Nodup ∧
    (∀ pfx, pfx ∈ (UpsertGeneratedIdentities cache newly used).recoveries →
      (LookupByIPRLocked (UpsertGeneratedIdentities cache newly used).cache
        pfx).isSome) ∧
    (∀ k, (LookupByIPRLocked cache k).isSome →
      (LookupByIPRLocked (UpsertGeneratedIdentities cache newly used).cache
        k).isSome) := by
  cases used with
  | nil =>
    have hbase : UpsertGeneratedIdentities cache newly [] =
        ⟨upsertAll cache newly, [], []⟩ := by
      simp [UpsertGeneratedIdentities]
    rw [hbase]
    refine ⟨?_, by simp, by simp, by simp, by simp, ?_⟩
    · intro k id hmem
      exact alookup_upsertAll_mem cache newly k id hnd hmem
    · intro k hk
      exact isSome_alookup_upsertAll cache newly k hk
  | cons u us =>
    have hout : UpsertGeneratedIdentities cache newly (u :: us) =
        ⟨upsertAll (upsertAll cache newly)
           ((u :: us).foldl (usedStep (upsertAll cache newly)) ([], [])).1,
         (((u :: us).foldl (usedStep (upsertAll cache newly)) ([], [])).1).map
           Prod.fst,
         ((u :: us).foldl (usedStep (upsertAll cache newly)) ([], [])).2⟩ := by
      simp [UpsertGeneratedIdentities]
    have hbase : UpsertGeneratedIdentities cache newly [] =
        ⟨upsertAll cache newly, [], []⟩ := by
      simp [UpsertGeneratedIdentities]
    have hkeys := usedFold_keys (upsertAll cache newly) (u :: us) ([], [])
    have hndacc := usedFold_nodup (upsertAll cache newly) (u :: us) ([], [])
      (by simp)
    refine ⟨?_, ?_, ?_, ?_, ?_, ?_⟩
    · intro k id hmem
      rw [hout]
      have hlk1 : alookup (upsertAll cache newly) k = some ⟨id.ID, Source.Generated⟩ :=
        alookup_upsertAll_mem cache newly k id hnd hmem
      have hnotin :
          k ∉ (((u :: us).foldl (usedStep (upsertAll cache newly)) ([], [])).1).map
            Prod.fst := by
        intro hin
        rcases (hkeys k).mp hin with h1 | ⟨id2, hid2, hc1, hc2⟩
        · simp at h1
        · rw [LookupByIPRLocked] at hc2
          rw [hc2] at hlk1
          exact absurd hlk1 (by simp)
      show alookup _ k = _
      rw [alookup_upsertAll_notmem _ _ _ hnotin]
      exact hlk1
    · intro id hid hparse
      rw [hout]
      have hw := usedFold_warnings (upsertAll cache newly) (u :: us) ([], [])
      show id.ID ∈ ((u :: us).foldl (usedStep (upsertAll cache newly)) ([], [])).2
      rw [hw]
      simp only [List.nil_append, List.mem_filterMap]
      exact ⟨id, hid, by simp [hparse]⟩
    · intro pfx
      rw [hout, hbase]
      constructor
      · intro hin
        rcases (hkeys pfx).mp hin with h1 | ⟨id2, hid2, hc1, hc2⟩
        · simp at h1
        · exact ⟨⟨id2, hid2, hc1⟩, hc2⟩
      · rintro ⟨⟨id2, hid2, hc1⟩, hc2⟩
        exact (hkeys pfx).mpr (Or.inr ⟨id2, hid2, hc1, hc2⟩)
    · rw [hout]
      exact hndacc
    · intro pfx hin
      rw [hout] at hin ⊢
      obtain ⟨x, hx, hfst⟩ := List.mem_map.mp hin
      obtain ⟨k2, v2⟩ := x
      subst hfst
      have := alookup_upsertAll_mem (upsertAll cache newly) _ k2 v2 hndacc hx
      show (alookup _ k2).isSome
      rw [this]
      rfl
    · intro k hk
      rw [hout]
      show (alookup _ k).isSome
      exact isSome_alookup_upsertAll _ _ _ (isSome_alookup_upsertAll _ _ _ hk)

/-- C1: when the allocation of some prefix fails, AllocateCIDRs returns a nil
identity list together with that error, every identity allocated earlier in
the same call is handed back to the allocator for release, and no cache
upsert is performed: the cache is unchanged, the released list is exactly the
identities of the earlier successful allocator calls, and the call trace ends
with the failing call carrying the returned error. -/
theorem allocateCIDRs_rollback_on_failure (world : IPNet → Bool) (cache : Cache)
    (prefixes : List (Option IPNet)) (oldNIDs : List Nat)
    (sink : Option (List (String × Identity)))
    (replies : Nat → Except String AllocReply) (e : String)
    (hfail : (AllocateCIDRs world cache prefixes oldNIDs sink replies).ret =
      Except.error e) :
    (AllocateCIDRs world cache prefixes oldNIDs sink replies).cache = cache ∧
    (AllocateCIDRs world cache prefixes oldNIDs sink replies).recoveries = [] ∧
    (AllocateCIDRs world cache prefixes oldNIDs sink replies).released =
      okIds (AllocateCIDRs world cache prefixes oldNIDs sink replies).calls.dropLast ∧
    (∀ c ∈ (AllocateCIDRs world cache prefixes oldNIDs sink replies).calls.dropLast,
      callOk c = true) ∧
    ∃ s h2, (AllocateCIDRs world cache prefixes oldNIDs sink replies).calls =
      (AllocateCIDRs world cache prefixes oldNIDs sink replies).calls.dropLast ++
        [⟨s, h2, Except.error e⟩] := by
  cases hres : allocLoop world oldNIDs replies prefixes 0 0 [] [] (sink.getD []) [] with
  | ok a n cs =>
    exfalso
    cases sink with
    | none =>
      rw [Option.getD_none] at hres
      simp [AllocateCIDRs, hres] at hfail
    | some s1 =>
      rw [Option.getD_some] at hres
      simp [AllocateCIDRs, hres] at hfail
  | fail e0 used2 newly2 calls2 =>
    have hspec := allocLoop_fail_spec world oldNIDs replies prefixes 0 0 [] []
      (sink.getD []) [] e0 used2 newly2 calls2 hres rfl
      (by intro c hc; simp at hc)
    have hout : AllocateCIDRs world cache prefixes oldNIDs sink replies =
        ⟨.error e0, used2, cache, [], newly2, [], calls2⟩ := by
      simp [AllocateCIDRs, hres]
    rw [hout] at hfail ⊢
    have he : e0 = e := by injection hfail
    subst he
    obtain ⟨h1, h2, h3⟩ := hspec
    exact ⟨rfl, rfl, h1, h2, h3⟩

/-- C2: a successful AllocateCIDRs call with a nil outputSink upserts into
the cache, with source Generated, exactly the prefixes the allocator reported
as newly allocated; prefixes never reported new leave the cache unchanged at
their key; and the returned identities are the values of the allocated map,
whose keys carry no duplicate prefix string. -/
theorem allocateCIDRs_nil_sink_upserts_new (world : IPNet → Bool) (cache : Cache)
    (prefixes : List (Option IPNet)) (oldNIDs : List Nat)
    (replies : Nat → Except String AllocReply) (ids : List Identity)
    (hok : (AllocateCIDRs world cache prefixes oldNIDs none replies).ret =
      Except.ok ids) :
    (∀ k id,
      (k, id) ∈ (AllocateCIDRs world cache prefixes oldNIDs none replies).newly →
      LookupByIPRLocked
        (AllocateCIDRs world cache prefixes oldNIDs none replies).cache k =
        some ⟨id.ID, Source.Generated⟩) ∧
    (∀ k,
      k ∉ ((AllocateCIDRs world cache prefixes oldNIDs none replies).newly).map
        Prod.fst →
      LookupByIPRLocked
        (AllocateCIDRs world cache prefixes oldNIDs none replies).cache k =
        LookupByIPRLocked cache k) ∧
    (∀ k,
      k ∈ ((AllocateCIDRs world cache prefixes oldNIDs none replies).newly).map
        Prod.fst ↔
      ∃ c ∈ (AllocateCIDRs world cache prefixes oldNIDs none replies).calls,
        c.prefixStr = k ∧ isNewCall c = true) ∧
    (((AllocateCIDRs world cache prefixes oldNIDs none replies).allocated).map
      Prod.fst).Nodup ∧
    ids = ((AllocateCIDRs world cache prefixes oldNIDs none replies).allocated).map
      Prod.snd := by
  cases hres : allocLoop world oldNIDs replies prefixes 0 0 [] [] [] [] with
  | fail e0 u n cs =>
    exfalso
    simp [AllocateCIDRs, hres] at hok
  | ok alloc2 newly2 calls2 =>
    obtain ⟨⟨ext, hext, hkeys⟩, hndn, hnda⟩ :=
      allocLoop_ok_spec world oldNIDs replies prefixes 0 0 [] [] [] [] alloc2
        newly2 calls2 hres
    rw [List.nil_append] at hext
    subst hext
    have hout : AllocateCIDRs world cache prefixes oldNIDs none replies =
        ⟨.ok (alloc2.map Prod.snd), [],
         (UpsertGeneratedIdentities cache newly2 []).cache, alloc2, newly2,
         (UpsertGeneratedIdentities cache newly2 []).recoveries, calls2⟩ := by
      simp [AllocateCIDRs, hres]
    rw [hout] at hok ⊢
    have hids : ids = alloc2.map Prod.snd := by
      injection hok with hh
      exact hh.symm
    have hbase : (UpsertGeneratedIdentities cache newly2 []).cache =
        upsertAll cache newly2 := by
      simp [UpsertGeneratedIdentities]
    have hndnewly : (newly2.map Prod.fst).Nodup := hndn (by simp)
    refine ⟨?_, ?_, ?_, hnda (by simp), hids⟩
    · intro k id hmem
      show LookupByIPRLocked (UpsertGeneratedIdentities cache newly2 []).cache k = _
      rw [hbase]
      exact alookup_upsertAll_mem cache newly2 k id hndnewly hmem
    · intro k hnotin
      show LookupByIPRLocked (UpsertGeneratedIdentities cache newly2 []).cache k = _
      rw [hbase]
      exact alookup_upsertAll_notmem cache newly2 k hnotin
    · intro k
      have := hkeys k
      simpa using this

/-- C3: a successful AllocateCIDRs call with a caller-provided outputSink
performs no cache upsert at all and increments no recovery counter; the
sink's final keys are its initial keys plus exactly the prefixes of the calls
the allocator reported as new, and every such freshly allocated prefix has an
entry in the sink. -/
theorem allocateCIDRs_sink_no_cache_upsert (world : IPNet → Bool) (cache : Cache)
    (prefixes : List (Option IPNet)) (oldNIDs : List Nat)
    (s0 : List (String × Identity)) (replies : Nat → Except String AllocReply)
    (ids : List Identity)
    (hok : (AllocateCIDRs world cache prefixes oldNIDs (some s0) replies).ret =
      Except.ok ids) :
    (AllocateCIDRs world cache prefixes oldNIDs (some s0) replies).cache = cache ∧
    (AllocateCIDRs world cache prefixes oldNIDs (some s0) replies).recoveries = [] ∧
    (∀ k,
      k ∈ ((AllocateCIDRs world cache prefixes oldNIDs (some s0) replies).newly).map
        Prod.fst ↔
      (k ∈ s0.map Prod.fst ∨
        ∃ c ∈ (AllocateCIDRs world cache prefixes oldNIDs (some s0) replies).calls,
          c.prefixStr = k ∧ isNewCall c = true)) ∧
    (∀ c ∈ (AllocateCIDRs world cache prefixes oldNIDs (some s0) replies).calls,
      isNewCall c = true →
      ∃ id, (c.prefixStr, id) ∈
        (AllocateCIDRs world cache prefixes oldNIDs (some s0) replies).newly) := by
  cases hres : allocLoop world oldNIDs replies prefixes 0 0 [] [] s0 [] with
  | fail e0 u n cs =>
    exfalso
    simp [AllocateCIDRs, hres] at hok
  | ok alloc2 newly2 calls2 =>
    obtain ⟨⟨ext, hext, hkeys⟩, hndn, hnda⟩ :=
      allocLoop_ok_spec world oldNIDs replies prefixes 0 0 [] [] s0 [] alloc2
        newly2 calls2 hres
    rw [List.nil_append] at hext
    subst hext
    have hout : AllocateCIDRs world cache prefixes oldNIDs (some s0) replies =
        ⟨.ok (alloc2.map Prod.snd), [], cache, alloc2, newly2, [], calls2⟩ := by
      simp [AllocateCIDRs, hres]
    rw [hout]
    refine ⟨rfl, rfl, fun k => hkeys k, ?_⟩
    · intro c hc hnew
      have hin : c.prefixStr ∈ newly2.map Prod.fst :=
        (hkeys c.prefixStr).mpr (Or.inr ⟨c, hc, rfl, hnew⟩)
      obtain ⟨x, hx, hfst⟩ := List.mem_map.mp hin
      refine ⟨x.2, ?_⟩
      show (c.prefixStr, x.2) ∈ newly2
      rw [← hfst]
      simpa using hx

theorem allocLoop_all_none (world : IPNet → Bool) (oldNIDs : List Nat)
    (replies : Nat → Except String AllocReply) (ps : List (Option IPNet))
    (hall : ∀ x ∈ ps, x = none) :
    ∀ (i j : Nat) (used : List Identity) (alloc newly : List (String × Identity))
      (calls : List AllocCall),
      allocLoop world oldNIDs replies ps i j used alloc newly calls =
        .ok alloc newly calls := by
  induction ps with
  | nil => intro i j used alloc newly calls; rw [allocLoop]
  | cons op rest ih =>
    intro i j used alloc newly calls
    have hop : op = none := hall op (List.mem_cons_self _ _)
    subst hop
    rw [allocLoop]
    exact ih (fun x hx => hall x (List.mem_cons_of_mem _ hx)) (i + 1) j used alloc
      newly calls

/-- C6: nil entries of the prefixes sequence are skipped without error and
without consuming an allocator reply or allocating anything, and a batch of
only nil entries (or an empty batch) returns an empty identity list and no
error, with the cache untouched and no allocator call made. -/
theorem allocateCIDRs_nil_prefixes_skipped :
    (∀ (world : IPNet → Bool) (oldNIDs : List Nat)
        (replies : Nat → Except String AllocReply) (ps : List (Option IPNet))
        (i j : Nat) (used : List Identity) (alloc newly : List (String × Identity))
        (calls : List AllocCall),
      allocLoop world oldNIDs replies (none :: ps) i j used alloc newly calls =
        allocLoop world oldNIDs replies ps (i + 1) j used alloc newly calls) ∧
    (∀ (world : IPNet → Bool) (cache : Cache) (prefixes : List (Option IPNet))
        (oldNIDs : List Nat) (sink : Option (List (String × Identity)))
        (replies : Nat → Except String AllocReply),
      (∀ x ∈ prefixes, x = none) →
      AllocateCIDRs world cache prefixes oldNIDs sink replies =
        ⟨Except.ok [], [], cache, [], sink.getD [], [], []⟩) := by
  constructor
  · intro world oldNIDs replies ps i j used alloc newly calls
    rw [allocLoop]
  · intro world cache prefixes oldNIDs sink replies hall
    have hloop := allocLoop_all_none world oldNIDs replies prefixes hall 0 0 []
      [] (sink.getD []) []
    cases sink with
    | none =>
      rw [Option.getD_none] at hloop ⊢
      simp [AllocateCIDRs, hloop, UpsertGeneratedIdentities, upsertAll]
    | some s1 =>
      rw [Option.getD_some] at hloop ⊢
      simp [AllocateCIDRs, hloop]

theorem hintAt_eq_getD (l : List Nat) (i : Nat) :
    hintAt l i = l.getD i InvalidIdentity := by
  rw [hintAt]
  split
  · next h =>
    rw [List.getD_eq_getElem l _ h]
    simp
  · next h =>
    rw [List.getD_eq_default]
    omega

/-- C10: AllocateCIDRs tolerates an oldNIDs slice of any length: the hint
passed to the allocator for the prefix at index i is element i of oldNIDs
when that index exists and the invalid sentinel otherwise, and no field of
the outcome other than the recorded hints depends on oldNIDs at all, so a
short slice yields normal allocation rather than a fault. -/
theorem allocateCIDRs_oldNIDs_bounds :
    (∀ (world : IPNet → Bool) (cache : Cache) (prefixes : List (Option IPNet))
        (oldNIDs : List Nat) (sink : Option (List (String × Identity)))
        (replies : Nat → Except String AllocReply) (ids : List Identity)
        (i : Nat) (p : IPNet),
      (AllocateCIDRs world cache prefixes oldNIDs sink replies).ret =
        Except.ok ids →
      prefixes[i]? = some (some p) →
      ((AllocateCIDRs world cache prefixes oldNIDs sink replies).calls)[nnb
        prefixes i]? =
        some ⟨p.str, oldNIDs.getD i InvalidIdentity,
          allocate world (replies (nnb prefixes i)) p⟩) ∧
    (∀ (world : IPNet → Bool) (cache : Cache) (prefixes : List (Option IPNet))
        (oldN oldN2 : List Nat) (sink : Option (List (String × Identity)))
        (replies : Nat → Except String AllocReply),
      (AllocateCIDRs world cache prefixes oldN sink replies).ret =
        (AllocateCIDRs world cache prefixes oldN2 sink replies).ret ∧
      (AllocateCIDRs world cache prefixes oldN sink replies).released =
        (AllocateCIDRs world cache prefixes oldN2 sink replies).released ∧
      (AllocateCIDRs world cache prefixes oldN sink replies).cache =
        (AllocateCIDRs world cache prefixes oldN2 sink replies).cache ∧
      (AllocateCIDRs world cache prefixes oldN sink replies).allocated =
        (AllocateCIDRs world cache prefixes oldN2 sink replies).allocated ∧
      (AllocateCIDRs world cache prefixes oldN sink replies).newly =
        (AllocateCIDRs world cache prefixes oldN2 sink replies).newly ∧
      (AllocateCIDRs world cache prefixes oldN sink replies).recoveries =
        (AllocateCIDRs world cache prefixes oldN2 sink replies).recoveries) := by
  constructor
  · intro world cache prefixes oldNIDs sink replies ids i p hok hp
    cases hres : allocLoop world oldNIDs replies prefixes 0 0 [] [] (sink.getD []) [] with
    | fail e0 u n cs =>
      exfalso
      cases sink with
      | none =>
        rw [Option.getD_none] at hres
        simp [AllocateCIDRs, hres] at hok
      | some s1 =>
        rw [Option.getD_some] at hres
        simp [AllocateCIDRs, hres] at hok
    | ok alloc2 newly2 calls2 =>
      have hcalls :
          (AllocateCIDRs world cache prefixes oldNIDs sink replies).calls =
            calls2 := by
        cases sink with
        | none =>
          rw [Option.getD_none] at hres
          simp [AllocateCIDRs, hres]
        | some s1 =>
          rw [Option.getD_some] at hres
          simp [AllocateCIDRs, hres]
      rw [hcalls, ← hintAt_eq_getD]
      have := allocLoop_calls_spec world oldNIDs replies prefixes 0 0 [] []
        (sink.getD []) [] alloc2 newly2 calls2 hres rfl i p hp
      simpa using this
  · intro world cache prefixes oldN oldN2 sink replies
    have hs := allocLoop_hint_congr world oldN oldN2 replies prefixes 0 0 [] []
      (sink.getD []) [] [] rfl
    cases h1 : allocLoop world oldN replies prefixes 0 0 [] [] (sink.getD []) [] with
    | fail e0 u n cs =>
      cases h2 : allocLoop world oldN2 replies prefixes 0 0 [] [] (sink.getD []) [] with
      | fail e2 u2 n2 cs2 =>
        rw [h1, h2] at hs
        simp only [stripRes, LoopResult.fail.injEq] at hs
        obtain ⟨he, hu, hn, hc⟩ := hs
        subst he
        subst hu
        subst hn
        cases sink with
        | none =>
          rw [Option.getD_none] at h1 h2
          simp [AllocateCIDRs, h1, h2]
        | some s1 =>
          rw [Option.getD_some] at h1 h2
          simp [AllocateCIDRs, h1, h2]
      | ok a2 n2 cs2 =>
        rw [h1, h2] at hs
        simp [stripRes] at hs
    | ok alloc2 newly2 calls2 =>
      cases h2 : allocLoop world oldN2 replies prefixes 0 0 [] [] (sink.getD []) [] with
      | fail e2 u2 n2 cs2 =>
        rw [h1, h2] at hs
        simp [stripRes] at hs
      | ok a2 n2 cs2 =>
        rw [h1, h2] at hs
        simp only [stripRes, LoopResult.ok.injEq] at hs
        obtain ⟨ha, hn, hc⟩ := hs
        subst ha
        subst hn
        cases sink with
        | none =>
          rw [Option.getD_none] at h1 h2
          simp [AllocateCIDRs, h1, h2]
        | some s1 =>
          rw [Option.getD_some] at h1 h2
          simp [AllocateCIDRs, h1, h2]

theorem releaseEvent_compute (pstr : String) (pfx : IPNet) (idr : Identity)
    (rc : Nat) (cache : Cache) (h : 0 < rc) :
    releaseEvent pstr pfx idr ⟨rc, cache⟩ =
      ⟨rc - 1, if rc = 1 then adelete cache pstr else cache⟩ := by
  by_cases h1 : rc = 1
  · subst h1
    simp [releaseEvent, releaseReplyOf, releaseCIDRIdentities, releaseLoop,
      deleteLocked]
  · simp [releaseEvent, releaseReplyOf, releaseCIDRIdentities, releaseLoop,
      deleteLocked, h, h1, beq_iff_eq]

theorem upsertEvent_true (pstr : String) (ida : Identity) (rc : Nat)
    (cache : Cache) :
    upsertEvent pstr ida true ⟨rc, cache⟩ =
      ⟨rc, Upsert cache pstr ⟨ida.ID, Source.Generated⟩⟩ := by
  simp [upsertEvent, UpsertGeneratedIdentities, upsertAll]

theorem upsertEvent_false (pstr : String) (ida : Identity) (rc : Nat)
    (cache : Cache) :
    upsertEvent pstr ida false ⟨rc, cache⟩ = ⟨rc, cache⟩ := by
  simp [upsertEvent, UpsertGeneratedIdentities, upsertAll]

/-- C9: in every interleaving of one release of a prefix with one concurrent
allocation of the same prefix, where the release critical section is atomic
as guaranteed by the coordinator lock, the run never ends with the identity
still referenced in the allocator but the cache missing the prefix entry:
starting from a consistent state, the final state keeps a positive reference
count and a cache entry for the prefix. -/
theorem release_allocate_interleaving_safe (sch : Schedule) (pstr : String)
    (pfx : IPNet) (idr ida : Identity) (s : RaceState) (hrc : 1 ≤ s.rc)
    (hcache : (LookupByIPRLocked s.cache pstr).isSome) :
    1 ≤ (raceRun sch pstr pfx idr ida s).rc ∧
    (LookupByIPRLocked (raceRun sch pstr pfx idr ida s).cache pstr).isSome := by
  obtain ⟨rc, cache⟩ := s
  simp only at hrc hcache
  cases sch with
  | RAU =>
    rcases rc with _ | n
    · exact absurd hrc (by omega)
    rcases n with _ | m
    · simp only [raceRun]
      rw [releaseEvent_compute _ _ _ 1 cache (by omega)]
      simp only [allocEvent]
      show 1 ≤ (upsertEvent pstr ida true ⟨1, adelete cache pstr⟩).rc ∧
        (LookupByIPRLocked (upsertEvent pstr ida true
          ⟨1, adelete cache pstr⟩).cache pstr).isSome = true
      rw [upsertEvent_true]
      refine ⟨by show (1 : Nat) ≤ 1; omega, ?_⟩
      show (alookup (aupsert (adelete cache pstr) pstr
        ⟨ida.ID, Source.Generated⟩) pstr).isSome = true
      rw [alookup_aupsert_self]
      rfl
    · simp only [raceRun]
      rw [releaseEvent_compute _ _ _ (m + 2) cache (by omega)]
      simp only [if_neg (by omega : ¬m + 2 = 1), allocEvent]
      show 1 ≤ (upsertEvent pstr ida false ⟨m + 2, cache⟩).rc ∧
        (LookupByIPRLocked (upsertEvent pstr ida false
          ⟨m + 2, cache⟩).cache pstr).isSome = true
      rw [upsertEvent_false]
      exact ⟨by show (1 : Nat) ≤ m + 2; omega, hcache⟩
  | ARU =>
    rcases rc with _ | n
    · exact absurd hrc (by omega)
    simp only [raceRun, allocEvent]
    rw [releaseEvent_compute _ _ _ (n + 2) cache (by omega)]
    simp only [if_neg (by omega : ¬n + 2 = 1)]
    show 1 ≤ (upsertEvent pstr ida false ⟨n + 1, cache⟩).rc ∧
      (LookupByIPRLocked (upsertEvent pstr ida false
        ⟨n + 1, cache⟩).cache pstr).isSome = true
    rw [upsertEvent_false]
    exact ⟨by show (1 : Nat) ≤ n + 1; omega, hcache⟩
  | AUR =>
    rcases rc with _ | n
    · exact absurd hrc (by omega)
    simp only [raceRun, allocEvent]
    show 1 ≤ (releaseEvent pstr pfx idr (upsertEvent pstr ida false
        ⟨n + 2, cache⟩)).rc ∧
      (LookupByIPRLocked (releaseEvent pstr pfx idr (upsertEvent pstr ida false
        ⟨n + 2, cache⟩)).cache pstr).isSome = true
    rw [upsertEvent_false]
    rw [releaseEvent_compute _ _ _ (n + 2) cache (by omega)]
    simp only [if_neg (by omega : ¬n + 2 = 1)]
    exact ⟨by omega, hcache⟩

/-- Witness for C1: a two-prefix batch whose second allocation fails rolls
back, leaving the cache empty and releasing the first identity. -/
theorem allocateCIDRs_rollback_on_failure_witness :
    (AllocateCIDRs (fun _ => true) [] [some ⟨"10.0.0.0", "10.0.0.0/24"⟩,
        some ⟨"10.0.1.0", "10.0.1.0/24"⟩] [] none
        (fun j => if j = 0 then Except.ok ⟨⟨100, ""⟩, true⟩
          else Except.error "boom")).ret =
      Except.error "failed to allocate identity for cidr 10.0.1.0/24: boom" ∧
    (AllocateCIDRs (fun _ => true) [] [some ⟨"10.0.0.0", "10.0.0.0/24"⟩,
        some ⟨"10.0.1.0", "10.0.1.0/24"⟩] [] none
        (fun j => if j = 0 then Except.ok ⟨⟨100, ""⟩, true⟩
          else Except.error "boom")).cache = [] ∧
    (AllocateCIDRs (fun _ => true) [] [some ⟨"10.0.0.0", "10.0.0.0/24"⟩,
        some ⟨"10.0.1.0", "10.0.1.0/24"⟩] [] none
        (fun j => if j = 0 then Except.ok ⟨⟨100, ""⟩, true⟩
          else Except.error "boom")).released =
      okIds ((AllocateCIDRs (fun _ => true) [] [some ⟨"10.0.0.0", "10.0.0.0/24"⟩,
        some ⟨"10.0.1.0", "10.0.1.0/24"⟩] [] none
        (fun j => if j = 0 then Except.ok ⟨⟨100, ""⟩, true⟩
          else Except.error "boom")).calls).dropLast :=
  ⟨by decide,
   (allocateCIDRs_rollback_on_failure (fun _ => true) []
     [some ⟨"10.0.0.0", "10.0.0.0/24"⟩, some ⟨"10.0.1.0", "10.0.1.0/24"⟩] [] none
     (fun j => if j = 0 then Except.ok ⟨⟨100, ""⟩, true⟩
       else Except.error "boom")
     "failed to allocate identity for cidr 10.0.1.0/24: boom" (by decide)).1,
   (allocateCIDRs_rollback_on_failure (fun _ => true) []
     [some ⟨"10.0.0.0", "10.0.0.0/24"⟩, some ⟨"10.0.1.0", "10.0.1.0/24"⟩] [] none
     (fun j => if j = 0 then Except.ok ⟨⟨100, ""⟩, true⟩
       else Except.error "boom")
     "failed to allocate identity for cidr 10.0.1.0/24: boom" (by decide)).2.2.1⟩

/-- Witness for C2: a fresh allocation with a nil sink ends upserted in the
cache with source Generated. -/
theorem allocateCIDRs_nil_sink_upserts_new_witness :
    (AllocateCIDRs (fun _ => true) [] [some ⟨"10.0.0.0", "10.0.0.0/24"⟩] [] none
        (fun _ => Except.ok ⟨⟨100, ""⟩, true⟩)).ret =
      Except.ok [⟨100, "cidr:10.0.0.0/24"⟩] ∧
    LookupByIPRLocked (AllocateCIDRs (fun _ => true) []
        [some ⟨"10.0.0.0", "10.0.0.0/24"⟩] [] none
        (fun _ => Except.ok ⟨⟨100, ""⟩, true⟩)).cache "10.0.0.0/24" =
      some ⟨100, Source.Generated⟩ :=
  ⟨by decide,
   (allocateCIDRs_nil_sink_upserts_new (fun _ => true) []
     [some ⟨"10.0.0.0", "10.0.0.0/24"⟩] []
     (fun _ => Except.ok ⟨⟨100, ""⟩, true⟩) [⟨100, "cidr:10.0.0.0/24"⟩]
     (by decide)).1 "10.0.0.0/24" ⟨100, "cidr:10.0.0.0/24"⟩ (by decide)⟩

/-- Witness for C3: with a caller-provided sink the cache is left exactly as
it was. -/
theorem allocateCIDRs_sink_no_cache_upsert_witness :
    (AllocateCIDRs (fun _ => true) [("9.9.9.9/32", ⟨7, Source.Other⟩)]
        [some ⟨"10.0.0.0", "10.0.0.0/24"⟩] [] (some [])
        (fun _ => Except.ok ⟨⟨100, ""⟩, true⟩)).ret =
      Except.ok [⟨100, "cidr:10.0.0.0/24"⟩] ∧
    (AllocateCIDRs (fun _ => true) [("9.9.9.9/32", ⟨7, Source.Other⟩)]
        [some ⟨"10.0.0.0", "10.0.0.0/24"⟩] [] (some [])
        (fun _ => Except.ok ⟨⟨100, ""⟩, true⟩)).cache =
      [("9.9.9.9/32", ⟨7, Source.Other⟩)] :=
  ⟨by decide,
   (allocateCIDRs_sink_no_cache_upsert (fun _ => true)
     [("9.9.9.9/32", ⟨7, Source.Other⟩)] [some ⟨"10.0.0.0", "10.0.0.0/24"⟩] []
     [] (fun _ => Except.ok ⟨⟨100, ""⟩, true⟩) [⟨100, "cidr:10.0.0.0/24"⟩]
     (by decide)).1⟩

/-- Witness for C5: a new-map entry is upserted with source Generated, and a
used CIDR identity with a missing cache entry is recovered with its counter
incremented. -/
theorem upsertGeneratedIdentities_spec_witness :
    LookupByIPRLocked (UpsertGeneratedIdentities []
        [("10.0.0.0/24", ⟨100, "cidr:10.0.0.0/24"⟩)]
        [⟨200, "cidr:10.0.5.0/24"⟩]).cache "10.0.0.0/24" =
      some ⟨100, Source.Generated⟩ ∧
    "10.0.5.0/24" ∈ (UpsertGeneratedIdentities []
        [("10.0.0.0/24", ⟨100, "cidr:10.0.0.0/24"⟩)]
        [⟨200, "cidr:10.0.5.0/24"⟩]).recoveries :=
  ⟨(upsertGeneratedIdentities_spec [] [("10.0.0.0/24", ⟨100, "cidr:10.0.0.0/24"⟩)]
     [⟨200, "cidr:10.0.5.0/24"⟩] (by decide)).1 "10.0.0.0/24"
     ⟨100, "cidr:10.0.0.0/24"⟩ (by decide),
   ((upsertGeneratedIdentities_spec [] [("10.0.0.0/24", ⟨100, "cidr:10.0.0.0/24"⟩)]
     [⟨200, "cidr:10.0.5.0/24"⟩] (by decide)).2.2.1 "10.0.5.0/24").mpr
     ⟨⟨⟨200, "cidr:10.0.5.0/24"⟩, by decide, by decide⟩, by decide⟩⟩

/-- Witness for C6: an all-nil batch returns an empty identity list, no
error, an unchanged cache and an empty call trace. -/
theorem allocateCIDRs_nil_prefixes_skipped_witness :
    AllocateCIDRs (fun _ => true) [("9.9.9.9/32", ⟨7, Source.Other⟩)]
        [none, none] [] none (fun _ => Except.ok ⟨⟨100, ""⟩, true⟩) =
      ⟨Except.ok [], [], [("9.9.9.9/32", ⟨7, Source.Other⟩)], [], [], [], []⟩ :=
  allocateCIDRs_nil_prefixes_skipped.2 (fun _ => true)
    [("9.9.9.9/32", ⟨7, Source.Other⟩)] [none, none] [] none
    (fun _ => Except.ok ⟨⟨100, ""⟩, true⟩) (by decide)

/-- Witness for C7: an unparsable head prefix is logged and skipped while the
rest of the batch is processed unchanged. -/
theorem releaseCIDRIdentities_failures_skipped_witness :
    releaseCIDRIdentities [("10.0.0.0/24", ⟨55, Source.Generated⟩)]
        [("bad", ⟨none, none, false, none⟩),
         ("10.0.0.0/24",
          ⟨some ⟨"10.0.0.0", "10.0.0.0/24"⟩, some ⟨55, "cidr:10.0.0.0/24"⟩,
           true, none⟩)] =
      ⟨(releaseCIDRIdentities [("10.0.0.0/24", ⟨55, Source.Generated⟩)]
          [("10.0.0.0/24",
            ⟨some ⟨"10.0.0.0", "10.0.0.0/24"⟩, some ⟨55, "cidr:10.0.0.0/24"⟩,
             true, none⟩)]).cache,
       (releaseCIDRIdentities [("10.0.0.0/24", ⟨55, Source.Generated⟩)]
          [("10.0.0.0/24",
            ⟨some ⟨"10.0.0.0", "10.0.0.0/24"⟩, some ⟨55, "cidr:10.0.0.0/24"⟩,
             true, none⟩)]).toDelete,
       "bad" :: (releaseCIDRIdentities [("10.0.0.0/24", ⟨55, Source.Generated⟩)]
          [("10.0.0.0/24",
            ⟨some ⟨"10.0.0.0", "10.0.0.0/24"⟩, some ⟨55, "cidr:10.0.0.0/24"⟩,
             true, none⟩)]).parseErrors,
       (releaseCIDRIdentities [("10.0.0.0/24", ⟨55, Source.Generated⟩)]
          [("10.0.0.0/24",
            ⟨some ⟨"10.0.0.0", "10.0.0.0/24"⟩, some ⟨55, "cidr:10.0.0.0/24"⟩,
             true, none⟩)]).notFound,
       (releaseCIDRIdentities [("10.0.0.0/24", ⟨55, Source.Generated⟩)]
          [("10.0.0.0/24",
            ⟨some ⟨"10.0.0.0", "10.0.0.0/24"⟩, some ⟨55, "cidr:10.0.0.0/24"⟩,
             true, none⟩)]).releaseWarnings⟩ :=
  (releaseCIDRIdentities_failures_skipped
    [("10.0.0.0/24", ⟨55, Source.Generated⟩)] "bad" ⟨none, none, false, none⟩
    [("10.0.0.0/24",
      ⟨some ⟨"10.0.0.0", "10.0.0.0/24"⟩, some ⟨55, "cidr:10.0.0.0/24"⟩, true,
       none⟩)]).1 (by decide)

/-- Witness for C9: releasing the last reference of a prefix concurrently
with a fresh allocation of it, release first, still ends with the identity
referenced and the cache entry present. -/
theorem release_allocate_interleaving_safe_witness :
    1 ≤ (raceRun Schedule.RAU "10.0.0.0/24" ⟨"10.0.0.0", "10.0.0.0/24"⟩
        ⟨55, "cidr:10.0.0.0/24"⟩ ⟨56, "cidr:10.0.0.0/24"⟩
        ⟨1, [("10.0.0.0/24", ⟨55, Source.Generated⟩)]⟩).rc ∧
    (LookupByIPRLocked (raceRun Schedule.RAU "10.0.0.0/24"
        ⟨"10.0.0.0", "10.0.0.0/24"⟩ ⟨55, "cidr:10.0.0.0/24"⟩
        ⟨56, "cidr:10.0.0.0/24"⟩
        ⟨1, [("10.0.0.0/24", ⟨55, Source.Generated⟩)]⟩).cache
      "10.0.0.0/24").isSome :=
  release_allocate_interleaving_safe Schedule.RAU "10.0.0.0/24"
    ⟨"10.0.0.0", "10.0.0.0/24"⟩ ⟨55, "cidr:10.0.0.0/24"⟩
    ⟨56, "cidr:10.0.0.0/24"⟩ ⟨1, [("10.0.0.0/24", ⟨55, Source.Generated⟩)]⟩
    (by decide) (by decide)

/-- Witness for C10: with an oldNIDs slice shorter than the prefix list, the
call made for the prefix at index one records the invalid sentinel hint and
the call still succeeds. -/
theorem allocateCIDRs_oldNIDs_bounds_witness :
    ((AllocateCIDRs (fun _ => true) [] [none, some ⟨"10.0.0.0", "10.0.0.0/24"⟩]
        [] none (fun _ => Except.ok ⟨⟨100, ""⟩, true⟩)).calls)[nnb
      [none, some ⟨"10.0.0.0", "10.0.0.0/24"⟩] 1]? =
      some ⟨"10.0.0.0/24", ([] : List Nat).getD 1 InvalidIdentity,
        allocate (fun _ => true)
          ((fun _ => Except.ok ⟨⟨100, ""⟩, true⟩)
            (nnb [none, some ⟨"10.0.0.0", "10.0.0.0/24"⟩] 1))
          ⟨"10.0.0.0", "10.0.0.0/24"⟩⟩ :=
  allocateCIDRs_oldNIDs_bounds.1 (fun _ => true) []
    [none, some ⟨"10.0.0.0", "10.0.0.0/24"⟩] [] none
    (fun _ => Except.ok ⟨⟨100, ""⟩, true⟩) [⟨100, "cidr:10.0.0.0/24"⟩] 1
    ⟨"10.0.0.0", "10.0.0.0/24"⟩ (by decide) (by decide)

end Ipcache
